import Mathlib

/-
Verification of the Abaqus material-property extractor
(src/inp-material-extractor.py) against its natural-language
specification.

The Python source is shallowly embedded as executable Lean functions.
Lines are modelled as `String`s; all character-level scanning is done on
`List Char`.  Python `dict`s (which preserve insertion order and update
values in place) are modelled as ordered association lists with the
operations `dictLookup`, `dictInsert` (update-in-place-or-append) and
`dictModify`.  Python `float` values that arise here only by parsing
decimal tokens are modelled exactly as rationals (constructor
`PyFloat.finite`), with `inf`/`nan` as separate constructors; no float
arithmetic is performed by the program, so this is faithful for every
claim below.  ASCII text is modelled; the source's Unicode-casing and
Unicode-digit corner cases are outside the modelled character set.
-/

/-! ## Characters and low-level string operations -/

/-- The whitespace characters stripped by Python `str.strip()` and matched
by the regex class used in the source (ASCII range). -/
def isPyWs (c : Char) : Bool :=
  c = ' ' || c = '\t' || c = '\n' || c = '\r' || c = '\x0b' || c = '\x0c'

/-- The character list of a string literal. -/
def strL (s : String) : List Char := s.toList

/-- The lower-to-upper letter pairs of the ASCII alphabet. -/
def caseTable : List (Char × Char) :=
  [('a', 'A'), ('b', 'B'), ('c', 'C'), ('d', 'D'), ('e', 'E'), ('f', 'F'),
   ('g', 'G'), ('h', 'H'), ('i', 'I'), ('j', 'J'), ('k', 'K'), ('l', 'L'),
   ('m', 'M'), ('n', 'N'), ('o', 'O'), ('p', 'P'), ('q', 'Q'), ('r', 'R'),
   ('s', 'S'), ('t', 'T'), ('u', 'U'), ('v', 'V'), ('w', 'W'), ('x', 'X'),
   ('y', 'Y'), ('z', 'Z')]

/-- ASCII upper-casing of one character, as Python `str.upper()` acts on
the ASCII inputs modelled here. -/
def upC (c : Char) : Char :=
  ((caseTable.find? (fun p => p.1 = c)).map (fun p => p.2)).getD c

/-- ASCII lower-casing of one character, as Python `str.lower()` acts on
the ASCII inputs modelled here. -/
def lowC (c : Char) : Char :=
  ((caseTable.find? (fun p => p.2 = c)).map (fun p => p.1)).getD c

/-- Upper-cased character list: model of `line.upper()`. -/
def upperL (cs : List Char) : List Char := cs.map upC

/-- Lower-cased character list: model of `line.lower()`. -/
def lowerL (cs : List Char) : List Char := cs.map lowC

/-- `startsL cs p` holds when `cs` begins with `p`: model of
`str.startswith`. -/
def startsL : List Char → List Char → Bool
  | _, [] => true
  | [], _ :: _ => false
  | c :: cs, p :: ps => c = p && startsL cs ps

/-- Model of Python `str.strip()`: drop the whitespace characters from
both ends. -/
def pyStripL (cs : List Char) : List Char :=
  ((cs.dropWhile isPyWs).reverse.dropWhile isPyWs).reverse

/-- Model of Python `line.split(',')`: split at every comma, keeping
empty segments. -/
def splitCommaL : List Char → List (List Char)
  | [] => [[]]
  | c :: cs =>
    if c = ',' then [] :: splitCommaL cs
    else
      match splitCommaL cs with
      | [] => [[c]]
      | t :: ts => (c :: t) :: ts

/-- `hasSubL needle hay`: model of Python `needle in hay` (substring
containment). -/
def hasSubL (needle : List Char) : List Char → Bool
  | [] => needle.isEmpty
  | c :: cs => startsL (c :: cs) needle || hasSubL needle cs

/-- The part of the line before the first occurrence of the `**` comment
marker: model of `line.split('**')[0]`. -/
def beforeMarker : List Char → List Char
  | [] => []
  | c :: cs => if startsL (c :: cs) (strL "**") then [] else c :: beforeMarker cs

/-- Numeric value of a run of decimal digits, as Python `int()`. -/
def digitsToNat (ds : List Char) : Nat :=
  ds.foldl (fun a c => a * 10 + (c.toNat - 48)) 0

/-! ## Regex-style scanners

The source uses `re.search` with the patterns
`name\s*=\s*([^\s,]+)`, `type\s*=\s*([^\s,]+)`,
`hardening\s*=\s*([^\s,]+)`, `constants\s*=\s*(\d+)` (all
case-insensitive) and `(\d+)`.  Each of these patterns is deterministic
(no backtracking can change the outcome), so the leftmost-match search is
modelled by trying an exact match at every position from the left. -/

/-- Case-insensitively strip the (lower-case) key `key` from the front of
the input, returning the rest on success. -/
def stripCI : List Char → List Char → Option (List Char)
  | [], rest => some rest
  | _ :: _, [] => none
  | p :: ps, c :: cs => if lowC c = p then stripCI ps cs else none

/-- Try to match `key` `\s*` `=` `\s*` followed by a nonempty maximal run
of characters satisfying `tokPred`, at the start of the input. -/
def attrAt (key : List Char) (tokPred : Char → Bool) (cs : List Char) :
    Option (List Char) :=
  match stripCI key cs with
  | none => none
  | some r1 =>
    match r1.dropWhile isPyWs with
    | '=' :: r3 =>
      let tok := (r3.dropWhile isPyWs).takeWhile tokPred
      if tok.isEmpty then none else some tok
    | _ => none

/-- Leftmost match of `key\s*=\s*(tok+)` anywhere in the line:
model of `re.search` for the attribute patterns of the source. -/
def attrScan (key : List Char) (tokPred : Char → Bool) : List Char → Option (List Char)
  | [] => none
  | c :: cs =>
    match attrAt key tokPred (c :: cs) with
    | some t => some t
    | none => attrScan key tokPred cs

/-- A character allowed in an attribute value: the class `[^\s,]`. -/
def notWsComma (c : Char) : Bool := !(isPyWs c) && !(c = ',')

/-- Model of `re.search(r'name\s*=\s*([^\s,]+)', line, re.IGNORECASE)`. -/
def findNameTok (cs : List Char) : Option (List Char) :=
  attrScan (strL "name") notWsComma cs

/-- Model of `re.search(r'type\s*=\s*([^\s,]+)', line, re.IGNORECASE)`. -/
def typeTok (cs : List Char) : Option (List Char) :=
  attrScan (strL "type") notWsComma cs

/-- Model of `re.search(r'hardening\s*=\s*([^\s,]+)', line, re.IGNORECASE)`. -/
def hardeningTok (cs : List Char) : Option (List Char) :=
  attrScan (strL "hardening") notWsComma cs

/-- Model of `re.search(r'constants\s*=\s*(\d+)', line, re.IGNORECASE)`
followed by `int(...)`. -/
def constantsTok (cs : List Char) : Option Nat :=
  (attrScan (strL "constants") Char.isDigit cs).map digitsToNat

/-- Model of `re.search(r'(\d+)', line)` followed by `int(...)`: the
first maximal run of digits in the line. -/
def firstDigits : List Char → Option Nat
  | [] => none
  | c :: cs =>
    if c.isDigit then some (digitsToNat (c :: cs.takeWhile Char.isDigit))
    else firstDigits cs

/-! ## Python float parsing

`float(v)` on an (already stripped) token accepts an optional sign
followed by `inf`/`infinity`/`nan` (case-insensitively) or a decimal
literal `digits [. digits] [(e|E) [sign] digits]` in which each digit
group may contain single underscores between digits.  Values are modelled
exactly: finite results as the denoted rational. -/

/-- A Python float value as stored by the extractor. -/
inductive PyFloat where
  | finite (q : ℚ)
  | inf (neg : Bool)
  | nan
deriving DecidableEq

/-- Continue a digit group: digits with single underscores allowed
between digits.  Returns the collected digits and the rest; fails on a
misplaced underscore. -/
def digitsTail : List Char → Option (List Char × List Char)
  | [] => some ([], [])
  | '_' :: rest =>
    match rest with
    | [] => none
    | c :: r =>
      if c.isDigit then (digitsTail r).map (fun p => (c :: p.1, p.2)) else none
  | c :: r =>
    if c.isDigit then (digitsTail r).map (fun p => (c :: p.1, p.2))
    else some ([], c :: r)

/-- A digit group (`digitpart` of the Python float grammar): at least one
digit, single underscores allowed between digits. -/
def digitPart : List Char → Option (List Char × List Char)
  | [] => none
  | c :: r =>
    if c.isDigit then (digitsTail r).map (fun p => (c :: p.1, p.2)) else none

/-- An exponent part `(e|E) [sign] digitpart` that must consume the whole
rest of the token.  Returns the exponent sign and digits. -/
def expPart : List Char → Option (Bool × List Char)
  | [] => none
  | e :: r =>
    if e = 'e' || e = 'E' then
      let sr : Bool × List Char :=
        match r with
        | '+' :: rr => (false, rr)
        | '-' :: rr => (true, rr)
        | rr => (false, rr)
      match digitPart sr.2 with
      | some (ds, []) => some (sr.1, ds)
      | _ => none
    else none

/-- The rational denoted by a decimal literal with integer digits `ip`,
fractional digits `fp` and a decimal exponent. -/
def decVal (neg : Bool) (ip fp : List Char) (exNeg : Bool) (eds : List Char) :
    PyFloat :=
  let e : Int :=
    (if exNeg then -(digitsToNat eds : Int) else (digitsToNat eds : Int))
      - (fp.length : Int)
  let n : Nat := digitsToNat (ip ++ fp)
  let q : ℚ :=
    if 0 ≤ e then mkRat ((n * 10 ^ e.toNat : Nat) : Int) 1
    else mkRat (n : Int) (10 ^ (-e).toNat)
  PyFloat.finite (if neg then -q else q)

/-- Finish parsing a decimal literal after the mantissa: the rest must be
empty or a full exponent part. -/
def finishNum (neg : Bool) (ip fp rest : List Char) : Option PyFloat :=
  match rest with
  | [] => some (decVal neg ip fp false [])
  | _ :: _ =>
    match expPart rest with
    | some (sgn, eds) => some (decVal neg ip fp sgn eds)
    | none => none

/-- Model of Python `float(v)` on a stripped token: `some` exactly when
the conversion succeeds, with the exact value. -/
def pyFloatL (cs : List Char) : Option PyFloat :=
  let sr : Bool × List Char :=
    match cs with
    | '+' :: r => (false, r)
    | '-' :: r => (true, r)
    | r => (false, r)
  let lr := lowerL sr.2
  if lr = strL "inf" || lr = strL "infinity" then some (PyFloat.inf sr.1)
  else if lr = strL "nan" then some PyFloat.nan
  else
    match digitPart sr.2 with
    | some (ip, r1) =>
      match r1 with
      | '.' :: r2 =>
        (match digitPart r2 with
         | some (fp, r3) => finishNum sr.1 ip fp r3
         | none => finishNum sr.1 ip [] r2)
      | _ => finishNum sr.1 ip [] r1
    | none =>
      match sr.2 with
      | '.' :: r2 =>
        (match digitPart r2 with
         | some (fp, r3) => finishNum sr.1 [] fp r3
         | none => none)
      | _ => none

/-! ## The data model -/

/-- One data row: either every field parsed as a float, or every field is
kept as its raw string token (never a mix within a row). -/
inductive Row where
  | nums (vals : List PyFloat)
  | strs (vals : List String)
deriving DecidableEq

/-- A property value: an ordered list of data rows, or a scalar string or
integer attribute. -/
inductive PropVal where
  | rows (rs : List Row)
  | str (v : String)
  | int (n : Nat)
deriving DecidableEq

/-- A material: ordered mapping from property key to value. -/
abbrev Material := List (String × PropVal)

/-- The whole result: ordered mapping from material name to material. -/
abbrev Materials := List (String × Material)

/-- Lookup in an ordered association list (Python `d[k]` / `k in d`). -/
def dictLookup {α : Type} (k : String) : List (String × α) → Option α
  | [] => none
  | (k', v) :: r => if k' = k then some v else dictLookup k r

/-- Python `d[k] = v`: update in place when the key exists (keeping its
position), otherwise append. -/
def dictInsert {α : Type} (k : String) (v : α) : List (String × α) → List (String × α)
  | [] => [(k, v)]
  | (k', v') :: r => if k' = k then (k', v) :: r else (k', v') :: dictInsert k v r

/-- Apply `f` to the value at key `k` when present (model of mutating
`d[k]`; the key is always present at every reachable call site). -/
def dictModify {α : Type} (k : String) (f : α → α) : List (String × α) → List (String × α)
  | [] => []
  | (k', v) :: r => if k' = k then (k', f v) :: r else (k', v) :: dictModify k f r

/-! ## The parsing state machine (`extract_material_properties`) -/

/-- The mutable parsing state of `extract_material_properties`:
the accumulated result and the three tracking variables
`current_material`, `current_property`, `reading_data`. -/
structure ParseState where
  materials : Materials
  currentMaterial : Option String
  currentProperty : Option String
  readingData : Bool
deriving DecidableEq

/-- STEP 1 of the loop body: skip empty lines, skip `**` comment lines,
truncate inline `**` comments; `none` means the line is skipped. -/
def cleanLineL (raw : List Char) : Option (List Char) :=
  let l1 := pyStripL raw
  if l1.isEmpty then none
  else if startsL l1 (strL "**") then none
  else
    let l2 := if hasSubL (strL "**") l1 then pyStripL (beforeMarker l1) else l1
    if l2.isEmpty then none else some l2

/-- `materials[current_material][current_property] = []` together with
setting `current_property` and `reading_data = True`. -/
def startProp (st : ParseState) (mat prop : String) : ParseState :=
  ⟨dictModify mat (dictInsert prop (PropVal.rows [])) st.materials,
    st.currentMaterial, some prop, true⟩

/-- `materials[current_material][key] = v` (attribute/metadata entries). -/
def insAttr (st : ParseState) (mat key : String) (v : PropVal) : ParseState :=
  ⟨dictModify mat (dictInsert key v) st.materials,
    st.currentMaterial, st.currentProperty, st.readingData⟩

/-- The hyperelastic model scan: first member of the fixed model list
whose space-stripped form occurs in the lower-cased, space-stripped line;
the stored value is the Python `str.title()` of the model name. -/
def hyperModelOf (cs : List Char) : Option String :=
  let hay := (lowerL cs).filter (fun c => !(c = ' '))
  if hasSubL (strL "mooney-rivlin") hay then some "Mooney-Rivlin"
  else if hasSubL (strL "neohooke") hay then some "Neo Hooke"
  else if hasSubL (strL "ogden") hay then some "Ogden"
  else if hasSubL (strL "polynomial") hay then some "Polynomial"
  else if hasSubL (strL "yeoh") hay then some "Yeoh"
  else none

/-- The boundary keywords of STEP 3's `else` branch
(`non_material_keywords` in the source). -/
def boundaryKeywords : List (List Char) :=
  [strL "*STEP", strL "*PART", strL "*ASSEMBLY", strL "*ELEMENT",
   strL "*NODE", strL "*SECTION", strL "*SOLID SECTION",
   strL "*SHELL SECTION", strL "*BEAM SECTION", strL "*BOUNDARY",
   strL "*ELSET", strL "*NSET"]

/-- `any(line_upper.startswith(kw) for kw in non_material_keywords)`. -/
def isBoundary (lu : List Char) : Bool :=
  boundaryKeywords.any (fun k => startsL lu k)

/-- STEP 3 of the loop body: the keyword dispatch chain, entered when a
material is current and the cleaned line starts with `*` but not
(case-insensitively) with `*MATERIAL`. -/
def keywordStep (st : ParseState) (mat : String) (cs : List Char) : ParseState :=
  let lu := upperL cs
  if startsL lu (strL "*ELASTIC") then
    let st1 := startProp st mat "Elastic"
    match typeTok cs with
    | some t => insAttr st1 mat "Elastic_Type" (PropVal.str (String.mk t))
    | none => st1
  else if startsL lu (strL "*PLASTIC") then
    let st1 := startProp st mat "Plastic"
    match hardeningTok cs with
    | some t => insAttr st1 mat "Plastic_Hardening" (PropVal.str (String.mk t))
    | none => st1
  else if startsL lu (strL "*DENSITY") then startProp st mat "Density"
  else if startsL lu (strL "*CONDUCTIVITY") then startProp st mat "Conductivity"
  else if startsL lu (strL "*SPECIFIC HEAT") then startProp st mat "Specific_Heat"
  else if startsL lu (strL "*EXPANSION") then
    let st1 := startProp st mat "Expansion"
    match typeTok cs with
    | some t => insAttr st1 mat "Expansion_Type" (PropVal.str (String.mk t))
    | none => st1
  else if startsL lu (strL "*DAMPING") then startProp st mat "Damping"
  else if startsL lu (strL "*HYPERELASTIC") then
    let st1 := startProp st mat "Hyperelastic"
    match hyperModelOf cs with
    | some m => insAttr st1 mat "Hyperelastic_Model" (PropVal.str m)
    | none => st1
  else if startsL lu (strL "*VISCOELASTIC") then startProp st mat "Viscoelastic"
  else if startsL lu (strL "*USER MATERIAL") then
    let st1 := startProp st mat "User_Material"
    match constantsTok cs with
    | some n => insAttr st1 mat "User_Material_Constants" (PropVal.int n)
    | none => st1
  else if startsL lu (strL "*DEPVAR") then
    let st1 : ParseState :=
      ⟨st.materials, st.currentMaterial, st.currentProperty, false⟩
    match firstDigits cs with
    | some n => insAttr st1 mat "Depvar" (PropVal.int n)
    | none => st1
  else
    if isBoundary lu then ⟨st.materials, none, none, false⟩
    else ⟨st.materials, st.currentMaterial, st.currentProperty, false⟩

/-- The trimmed, nonempty comma-separated tokens of a data line:
`[v.strip() for v in line.split(',') if v.strip()]`. -/
def tokensOf (cs : List Char) : List (List Char) :=
  ((splitCommaL cs).map pyStripL).filter (fun t => !t.isEmpty)

/-- `optList` turns a list of optional values into an optional list,
failing when any entry fails (the `try: [float(v) for v in values]`
pattern). -/
def optList {α : Type} : List (Option α) → Option (List α)
  | [] => some []
  | none :: _ => none
  | some x :: os =>
    match optList os with
    | some xs => some (x :: xs)
    | none => none

/-- Attempt to convert every token to a float. -/
def allFloats (toks : List (List Char)) : Option (List PyFloat) :=
  optList (toks.map pyFloatL)

/-- Append a row to a list-valued property (`.append(...)` in the
source; scalar values are never the current property). -/
def appendRow (r : Row) : PropVal → PropVal
  | PropVal.rows rs => PropVal.rows (rs ++ [r])
  | v => v

/-- STEP 4 of the loop body: consume one data line for the current
property. -/
def dataStep (st : ParseState) (mat prop : String) (cs : List Char) : ParseState :=
  let toks := tokensOf cs
  if toks.isEmpty then st
  else
    match allFloats toks with
    | some fs =>
      ⟨dictModify mat (dictModify prop (appendRow (Row.nums fs))) st.materials,
        st.currentMaterial, st.currentProperty, st.readingData⟩
    | none =>
      ⟨dictModify mat (dictModify prop (appendRow (Row.strs (toks.map String.mk)))) st.materials,
        st.currentMaterial, st.currentProperty, st.readingData⟩

/-- The loop body of `extract_material_properties` on an already cleaned
line (STEPs 2-4). -/
def stepCleanL (st : ParseState) (cs : List Char) : ParseState :=
  if startsL (upperL cs) (strL "*MATERIAL") then
    match findNameTok cs with
    | some t =>
      ⟨dictInsert (String.mk t) [] st.materials, some (String.mk t), none, false⟩
    | none => st
  else
    match st.currentMaterial with
    | some mat =>
      if startsL cs (strL "*") then keywordStep st mat cs
      else if st.readingData then
        match st.currentProperty with
        | some prop => dataStep st mat prop cs
        | none => st
      else st
    | none => st

/-- The loop body of `extract_material_properties` on one raw line. -/
def stepLine (st : ParseState) (raw : String) : ParseState :=
  match cleanLineL raw.toList with
  | none => st
  | some cs => stepCleanL st cs

/-- The initial parsing state. -/
def initState : ParseState := ⟨[], none, none, false⟩

/-- Process a list of lines from a given state. -/
def processLines (ls : List String) (st : ParseState) : ParseState :=
  ls.foldl stepLine st

/-- `extract_material_properties`, as a pure function from the file's
lines to the materials dictionary. -/
def extract_material_properties (ls : List String) : Materials :=
  (processLines ls initState).materials

/-! ## CSV flattening (`save_to_csv`) -/

/-- Decimal rendering of a rational that came from a parsed float token
(denominator a power of ten after reduction).  Python repr's
exponent-style formatting of extreme magnitudes is not modelled; no
claim depends on the rendered text. -/
def showQ (q : ℚ) : String :=
  let s := if q.num < 0 then "-" else ""
  let k := ((List.range 400).find? (fun k => (10 ^ k) % q.den = 0)).getD 0
  let n := q.num.natAbs * ((10 ^ k) / q.den)
  let ds := toString n
  if k = 0 then s ++ ds ++ ".0"
  else if ds.length ≤ k then
    s ++ "0." ++ String.mk (List.replicate (k - ds.length) '0') ++ ds
  else
    s ++ ds.take (ds.length - k) ++ "." ++ ds.drop (ds.length - k)

/-- Rendering of a stored float, as `str()` shows it. -/
def showPyFloat : PyFloat → String
  | PyFloat.finite q => showQ q
  | PyFloat.inf b => if b then "-inf" else "inf"
  | PyFloat.nan => "nan"

/-- Rendering of a data row, as Python `str(values)` shows a list
(string escaping corner cases are not modelled; no claim depends on the
rendered text). -/
def showRow : Row → String
  | Row.nums l => "[" ++ String.intercalate ", " (l.map showPyFloat) ++ "]"
  | Row.strs l =>
    "[" ++ String.intercalate ", " (l.map (fun s => "'" ++ s ++ "'")) ++ "]"

/-- One flat CSV record: the fixed columns plus the positional
`Value_i` fields (`fields` lists their rendered values in order). -/
structure FlatRecord where
  material : String
  property : String
  rowIndex : Nat
  valuesStr : String
  fields : List String
deriving DecidableEq

/-- The rendered positional fields of one row. -/
def rowFields : Row → List String
  | Row.nums l => l.map showPyFloat
  | Row.strs l => l

/-- The record for one data row of a list-valued property. -/
def rowRecord (m p : String) (i : Nat) (r : Row) : FlatRecord :=
  ⟨m, p, i, showRow r, rowFields r⟩

/-- The single record of a scalar-valued property: row index 0 and no
positional fields. -/
def scalarRecord (m p vs : String) : FlatRecord :=
  ⟨m, p, 0, vs, []⟩

/-- Records of one property's rows, indexed from `i`
(`enumerate(prop_value)`). -/
def enumRecs (m p : String) (i : Nat) : List Row → List FlatRecord
  | [] => []
  | r :: rest => rowRecord m p i r :: enumRecs m p (i + 1) rest

/-- Records of one property entry. -/
def recsOfProp (m p : String) : PropVal → List FlatRecord
  | PropVal.rows rs => enumRecs m p 0 rs
  | PropVal.str s => [scalarRecord m p s]
  | PropVal.int n => [scalarRecord m p (toString n)]

/-- Records of one material, property entries in insertion order. -/
def recordsOfMaterial (m : String) : Material → List FlatRecord
  | [] => []
  | (p, v) :: rest => recsOfProp m p v ++ recordsOfMaterial m rest

/-- The flattened record list of the whole result (`rows` in
`save_to_csv`), materials in insertion order. -/
def flatRecords : Materials → List FlatRecord
  | [] => []
  | (n, ps) :: rest => recordsOfMaterial n ps ++ flatRecords rest

/-- The `max_values` computation of `save_to_csv`: the running maximum of
each record's count of `Value_` keys (which is its number of positional
fields). -/
def maxWidth (rs : List FlatRecord) : Nat :=
  rs.foldl (fun m r => if m < r.fields.length then r.fields.length else m) 0

/-- Modelled from the spec: the maximum row width across all records of
the export. -/
def specMaxWidth (rs : List FlatRecord) : Nat :=
  (rs.map (fun r => r.fields.length)).foldr max 0

/-- The CSV header (`fieldnames`): the four fixed columns followed by
`Value_1 .. Value_n`. -/
def csvHeader (n : Nat) : List String :=
  ["Material", "Property", "Row_Index", "Values"]
    ++ (List.range n).map (fun i => "Value_" ++ toString (i + 1))

/-- The CSV cells of one record under `n` positional columns: a missing
`Value_` key is written as the empty string (`csv.DictWriter`'s default
`restval`). -/
def csvRowCells (n : Nat) (r : FlatRecord) : List String :=
  [r.material, r.property, toString r.rowIndex, r.valuesStr]
    ++ (List.range n).map (fun j => ((r.fields.get? j).getD ""))

/-- The full CSV table written by `save_to_csv`: empty when there are no
records, else the header row followed by one cell row per record. -/
def csvTable (ms : Materials) : List (List String) :=
  if (flatRecords ms).isEmpty then []
  else
    csvHeader (maxWidth (flatRecords ms))
      :: (flatRecords ms).map (csvRowCells (maxWidth (flatRecords ms)))

/-! ## JSON serialization (`save_to_json`)

`json.dump(materials, f, indent=4)` followed by `json.load` is modelled
at the level of the JSON document tree (the text layer of the standard
library round-trips each scalar exactly: `repr` for floats, decimal for
ints, escaped literals for strings). -/

/-- A JSON document tree as produced/consumed by the Python `json`
module on the extractor's data (ints and floats are distinct kinds). -/
inductive Json where
  | jstr (s : String)
  | jint (n : Nat)
  | jnum (v : PyFloat)
  | jarr (items : List Json)
  | jobj (entries : List (String × Json))

/-- Serialize one row. -/
def encodeRow : Row → Json
  | Row.nums l => Json.jarr (l.map Json.jnum)
  | Row.strs l => Json.jarr (l.map Json.jstr)

/-- Serialize one property value. -/
def encodePropVal : PropVal → Json
  | PropVal.rows rs => Json.jarr (rs.map encodeRow)
  | PropVal.str s => Json.jstr s
  | PropVal.int n => Json.jint n

/-- Serialize one material. -/
def encodeMaterial (m : Material) : Json :=
  Json.jobj (m.map (fun p => (p.1, encodePropVal p.2)))

/-- Serialize the whole result (`json.dump`). -/
def encodeMS (ms : Materials) : Json :=
  Json.jobj (ms.map (fun p => (p.1, encodeMaterial p.2)))

/-- Read back a float. -/
def asNum : Json → Option PyFloat
  | Json.jnum v => some v
  | _ => none

/-- Read back a string. -/
def asStr : Json → Option String
  | Json.jstr s => some s
  | _ => none

/-- Read back one row: a nonempty array of all-floats or all-strings. -/
def decodeRow : Json → Option Row
  | Json.jarr [] => none
  | Json.jarr js =>
    match optList (js.map asNum) with
    | some l => some (Row.nums l)
    | none => (optList (js.map asStr)).map Row.strs
  | _ => none

/-- Read back one property value. -/
def decodePropVal : Json → Option PropVal
  | Json.jstr s => some (PropVal.str s)
  | Json.jint n => some (PropVal.int n)
  | Json.jarr rs => (optList (rs.map decodeRow)).map PropVal.rows
  | _ => none

/-- Read back one material. -/
def decodeMaterial : Json → Option Material
  | Json.jobj es =>
    optList (es.map (fun p => (decodePropVal p.2).map (fun v => (p.1, v))))
  | _ => none

/-- Read back the whole result (`json.load`). -/
def decodeMS : Json → Option Materials
  | Json.jobj es =>
    optList (es.map (fun p => (decodeMaterial p.2).map (fun m => (p.1, m))))
  | _ => none

/-- A row as the parser actually produces it: nonempty. -/
def wfRow : Row → Bool
  | Row.nums l => !l.isEmpty
  | Row.strs l => !l.isEmpty

/-- Well-formedness of a property value: every row nonempty. -/
def wfPropVal : PropVal → Bool
  | PropVal.rows rs => rs.all wfRow
  | _ => true

/-- Well-formedness of a material. -/
def wfMaterial (m : Material) : Bool := m.all (fun p => wfPropVal p.2)

/-- Well-formedness of the whole result. -/
def wfMS (ms : Materials) : Bool := ms.all (fun p => wfMaterial p.2)

/-! ## Line classifiers used in the claim statements -/

/-- A line whose cleaned form (case-insensitively) starts the
`*MATERIAL` branch. -/
def isMaterialLine (l : String) : Bool :=
  match cleanLineL l.toList with
  | some c => startsL (upperL c) (strL "*MATERIAL")
  | none => false

/-- A line that is not a keyword line after cleaning (skipped lines
count: they reach no branch at all). -/
def notKeywordLine (l : String) : Bool :=
  match cleanLineL l.toList with
  | some c => !(startsL c (strL "*"))
  | none => true

/-- A cleaned keyword line that (case-insensitively) starts one of the
ten data-bearing property keywords of the dispatch chain. -/
def recognizedPropLine (cs : List Char) : Bool :=
  let lu := upperL cs
  startsL lu (strL "*ELASTIC") || startsL lu (strL "*PLASTIC")
    || startsL lu (strL "*DENSITY") || startsL lu (strL "*CONDUCTIVITY")
    || startsL lu (strL "*SPECIFIC HEAT") || startsL lu (strL "*EXPANSION")
    || startsL lu (strL "*DAMPING") || startsL lu (strL "*HYPERELASTIC")
    || startsL lu (strL "*VISCOELASTIC") || startsL lu (strL "*USER MATERIAL")

/-- A *MATERIAL declaration line for name `X` (after cleaning). -/
def materialDeclFor (l : String) (X : String) : Bool :=
  match cleanLineL l.toList with
  | some c =>
    startsL (upperL c) (strL "*MATERIAL")
      && (findNameTok c == some (strL X))
  | none => false

/-- Modelled from the spec: the per-material record count, the sum over
the property entries of the row count for list values and 1 for scalar
values. -/
def specRecordCount : Material → Nat
  | [] => 0
  | (_, v) :: rest =>
    (match v with
     | PropVal.rows rs => rs.length
     | _ => 1) + specRecordCount rest

/-- Two character patterns that disagree at some position where both are
defined (so no string can start with both). -/
def patsDiffer : List Char → List Char → Bool
  | a :: p, b :: q => if a = b then patsDiffer p q else true
  | _, _ => false

/-- The expected result of the boundary scenario of the spec. -/
def steelResult : Materials :=
  [("Steel",
    [("Elastic", PropVal.rows [Row.nums [PyFloat.finite 210000, PyFloat.finite (mkRat 3 10)]]),
     ("Elastic_Type", PropVal.str "ISOTROPIC"),
     ("Density", PropVal.rows [Row.nums [PyFloat.finite 7850]])])]

/-! ## Helper lemmas -/

theorem upC_eq_star {c : Char} (h : upC c = '*') : c = '*' := by
  unfold upC at h
  cases hf : caseTable.find? (fun p => p.1 = c) with
  | none => rw [hf] at h; exact h
  | some p =>
    rw [hf] at h
    have hm : p ∈ caseTable := List.mem_of_find?_eq_some hf
    have hall : ∀ q ∈ caseTable, ¬ q.2 = '*' := by decide
    exact absurd h (hall p hm)

theorem startsL_excl : ∀ (u p q : List Char), patsDiffer p q = true →
    startsL u p = true → startsL u q = false := by
  intro u
  induction u with
  | nil =>
    intro p q hd hp
    cases p with
    | nil => cases q <;> simp [patsDiffer] at hd
    | cons a p => simp [startsL] at hp
  | cons c u ih =>
    intro p q hd hp
    cases p with
    | nil => cases q <;> simp [patsDiffer] at hd
    | cons a p =>
      cases q with
      | nil => simp [patsDiffer] at hd
      | cons b q =>
        simp only [startsL, Bool.and_eq_true, decide_eq_true_eq] at hp
        by_cases hab : a = b
        · subst hab
          simp only [patsDiffer, if_pos rfl] at hd
          simp only [startsL, Bool.and_eq_false_iff]
          right
          exact ih p q hd hp.2
        · simp only [startsL, Bool.and_eq_false_iff]
          left
          simp only [decide_eq_false_iff_not]
          exact fun hcb => hab (hp.1.symm.trans hcb)

theorem starts_star_of_upper {cs rest : List Char}
    (h : startsL (upperL cs) ('*' :: rest) = true) : startsL cs ['*'] = true := by
  cases cs with
  | nil => simp [upperL, startsL] at h
  | cons c cr =>
    simp only [upperL, List.map, startsL, Bool.and_eq_true, decide_eq_true_eq] at h
    have hc : c = '*' := upC_eq_star h.1
    simp [startsL, hc]

theorem notMat_of_not_star {cs : List Char} (h : startsL cs ['*'] = false) :
    startsL (upperL cs) (strL "*MATERIAL") = false := by
  cases cs with
  | nil => rfl
  | cons c cr =>
    have hc : ¬ c = '*' := by simpa [startsL] using h
    have hu : ¬ upC c = '*' := fun hEq => hc (upC_eq_star hEq)
    have hr : startsL (upperL (c :: cr)) (strL "*MATERIAL")
        = (decide (upC c = '*') && startsL (upperL cr) (strL "MATERIAL")) := rfl
    rw [hr]
    simp [hu]

theorem dictLookup_insert {α : Type} (k : String) (v : α) (m : List (String × α))
    (X : String) :
    dictLookup X (dictInsert k v m) = if k = X then some v else dictLookup X m := by
  induction m with
  | nil => simp [dictInsert, dictLookup]
  | cons p r ih =>
    obtain ⟨k', v'⟩ := p
    by_cases h1 : k' = k
    · subst h1
      by_cases h2 : k' = X <;> simp [dictInsert, dictLookup, h2]
    · by_cases h2 : k' = X
      · subst h2
        simp [dictInsert, dictLookup, h1, ih]
        rw [if_neg (fun hh => h1 hh.symm)]
      · simp [dictInsert, dictLookup, h1, h2, ih]

theorem dictLookup_modify {α : Type} (k : String) (f : α → α) (m : List (String × α))
    (X : String) :
    dictLookup X (dictModify k f m)
      = if k = X then (dictLookup X m).map f else dictLookup X m := by
  induction m with
  | nil => simp [dictModify, dictLookup]
  | cons p r ih =>
    obtain ⟨k', v'⟩ := p
    by_cases h1 : k' = k
    · subst h1
      by_cases h2 : k' = X <;> simp [dictModify, dictLookup, h2]
    · by_cases h2 : k' = X
      · subst h2
        simp [dictModify, dictLookup, h1, ih]
        rw [if_neg (fun hh => h1 hh.symm)]
      · simp [dictModify, dictLookup, h1, h2, ih]

/-- With the reading flag off, a non-keyword line changes nothing. -/
theorem stepClean_not_reading (st : ParseState) (cs : List Char)
    (h1 : startsL cs ['*'] = false) (h2 : st.readingData = false) :
    stepCleanL st cs = st := by
  have h3 := notMat_of_not_star h1
  have h1' : startsL cs (strL "*") = false := h1
  obtain ⟨m, cm, cp, rd⟩ := st
  simp only at h2
  subst h2
  cases cm <;> simp [stepCleanL, h3, h1']

/-- With no current material, a line that does not open a material
changes nothing. -/
theorem stepClean_no_material (st : ParseState) (cs : List Char)
    (h1 : startsL (upperL cs) (strL "*MATERIAL") = false)
    (h2 : st.currentMaterial = none) :
    stepCleanL st cs = st := by
  obtain ⟨m, cm, cp, rd⟩ := st
  simp only at h2
  subst h2
  simp [stepCleanL, h1]

/-- A run of non-material lines from a material-free state is a no-op. -/
theorem processLines_no_material : ∀ (ds : List String) (st : ParseState),
    st.currentMaterial = none → (∀ l ∈ ds, isMaterialLine l = false) →
    processLines ds st = st := by
  intro ds
  induction ds with
  | nil => intro st _ _; rfl
  | cons l ds ih =>
    intro st hcm hall
    have hl := hall l (List.mem_cons_self l ds)
    have hstep : stepLine st l = st := by
      unfold stepLine
      cases hc : cleanLineL l.toList with
      | none => rfl
      | some c =>
        unfold isMaterialLine at hl
        rw [hc] at hl
        exact stepClean_no_material st c hl hcm
    show processLines ds (stepLine st l) = st
    rw [hstep]
    exact ih st hcm (fun x hx => hall x (List.mem_cons_of_mem l hx))

/-- A run of non-keyword lines from a state with the reading flag off is
a no-op. -/
theorem processLines_not_reading : ∀ (ds : List String) (st : ParseState),
    st.readingData = false → (∀ l ∈ ds, notKeywordLine l = true) →
    processLines ds st = st := by
  intro ds
  induction ds with
  | nil => intro st _ _; rfl
  | cons l ds ih =>
    intro st hrd hall
    have hl := hall l (List.mem_cons_self l ds)
    have hstep : stepLine st l = st := by
      unfold stepLine
      cases hc : cleanLineL l.toList with
      | none => rfl
      | some c =>
        unfold notKeywordLine at hl
        rw [hc] at hl
        simp only [Bool.not_eq_true'] at hl
        exact stepClean_not_reading st c hl hrd
    show processLines ds (stepLine st l) = st
    rw [hstep]
    exact ih st hrd (fun x hx => hall x (List.mem_cons_of_mem l hx))

/-! ## Claim C1 -/

/-- Claim C1 counterexample: with the keyword line *DEPVAR followed by
the data line 15, the resulting material is empty — in particular it
does not map the key Depvar to 15 (the source reads the integer only
from the keyword line itself, and the data line is dropped because no
readable-data state is opened). -/
theorem claim1_counterexample :
    extract_material_properties ["*MATERIAL, name=X", "*DEPVAR", "15"] = [("X", [])] := by
  decide

/-- Claim C1 (amended): a *DEPVAR keyword line seen in a material
context stores an integer only when one appears on the keyword line
itself; it opens no readable-data state, so any following run of
non-keyword lines (such as the line 15) changes nothing. -/
theorem claim1_amended (st : ParseState) (mat : String) (cs : List Char)
    (ds : List String)
    (hcm : st.currentMaterial = some mat)
    (hD : startsL (upperL cs) (strL "*DEPVAR") = true)
    (hds : ∀ l ∈ ds, notKeywordLine l = true) :
    (stepCleanL st cs).readingData = false
    ∧ (stepCleanL st cs).materials =
        (match firstDigits cs with
         | some n => dictModify mat (dictInsert "Depvar" (PropVal.int n)) st.materials
         | none => st.materials)
    ∧ processLines ds (stepCleanL st cs) = stepCleanL st cs := by
  have hM : startsL (upperL cs) (strL "*MATERIAL") = false :=
    startsL_excl _ _ _ (by decide) hD
  have hStar : startsL cs (strL "*") = true := starts_star_of_upper hD
  have hE : startsL (upperL cs) (strL "*ELASTIC") = false :=
    startsL_excl _ _ _ (by decide) hD
  have hP : startsL (upperL cs) (strL "*PLASTIC") = false :=
    startsL_excl _ _ _ (by decide) hD
  have hDe : startsL (upperL cs) (strL "*DENSITY") = false :=
    startsL_excl _ _ _ (by decide) hD
  have hC : startsL (upperL cs) (strL "*CONDUCTIVITY") = false :=
    startsL_excl _ _ _ (by decide) hD
  have hS : startsL (upperL cs) (strL "*SPECIFIC HEAT") = false :=
    startsL_excl _ _ _ (by decide) hD
  have hEx : startsL (upperL cs) (strL "*EXPANSION") = false :=
    startsL_excl _ _ _ (by decide) hD
  have hDa : startsL (upperL cs) (strL "*DAMPING") = false :=
    startsL_excl _ _ _ (by decide) hD
  have hH : startsL (upperL cs) (strL "*HYPERELASTIC") = false :=
    startsL_excl _ _ _ (by decide) hD
  have hV : startsL (upperL cs) (strL "*VISCOELASTIC") = false :=
    startsL_excl _ _ _ (by decide) hD
  have hU : startsL (upperL cs) (strL "*USER MATERIAL") = false :=
    startsL_excl _ _ _ (by decide) hD
  obtain ⟨m, cm, cp, rd⟩ := st
  simp only at hcm
  subst hcm
  have hstep : stepCleanL ⟨m, some mat, cp, rd⟩ cs =
      (match firstDigits cs with
       | some n =>
         ⟨dictModify mat (dictInsert "Depvar" (PropVal.int n)) m, some mat, cp, false⟩
       | none => ⟨m, some mat, cp, false⟩) := by
    cases hfd : firstDigits cs <;>
      simp [stepCleanL, hM, hStar, keywordStep, hE, hP, hDe, hC, hS, hEx,
        hDa, hH, hV, hU, hD, hfd, insAttr]
  rw [hstep]
  cases hfd : firstDigits cs <;>
    simp [hfd] <;>
    exact processLines_not_reading ds _ rfl hds

/-- Claim C1 amended, witnessed at the concrete counterexample input. -/
theorem claim1_witness :
    (stepCleanL ⟨[("X", [])], some "X", none, false⟩ (strL "*DEPVAR")).readingData = false
    ∧ (stepCleanL ⟨[("X", [])], some "X", none, false⟩ (strL "*DEPVAR")).materials =
        (match firstDigits (strL "*DEPVAR") with
         | some n => dictModify "X" (dictInsert "Depvar" (PropVal.int n)) [("X", [])]
         | none => [("X", [])])
    ∧ processLines ["15"] (stepCleanL ⟨[("X", [])], some "X", none, false⟩ (strL "*DEPVAR"))
        = stepCleanL ⟨[("X", [])], some "X", none, false⟩ (strL "*DEPVAR") :=
  claim1_amended ⟨[("X", [])], some "X", none, false⟩ "X" (strL "*DEPVAR") ["15"]
    rfl (by decide) (by decide)

/-! ## Claim C2 -/

/-- Claim C2 counterexample: the keyword line *MATERIAL (with no
parsable name) is seen between the activation of Elastic and the data
line 1.0, yet the row is still appended to the previously active
property Elastic of M — and *MATERIAL is not a recognized property
keyword, so no re-activation happened. -/
theorem claim2_counterexample :
    extract_material_properties ["*MATERIAL, name=M", "*ELASTIC", "*MATERIAL", "1.0"]
      = [("M", [("Elastic", PropVal.rows [Row.nums [PyFloat.finite 1]])])]
    ∧ recognizedPropLine (strL "*MATERIAL") = false := by
  constructor
  · decide
  · decide

/-- Claim C2 (amended): after a keyword line in a material context the
reading flag is off — so later data lines append nothing — unless the
keyword re-activated a recognized data-bearing property, or the keyword
line was a *MATERIAL line whose name fails to parse, which leaves the
whole parser state (including the reading flag and active property)
unchanged; and with the reading flag off a non-keyword line changes
nothing at all. -/
theorem claim2_amended :
    (∀ (st : ParseState) (cs : List Char),
      st.currentMaterial.isSome = true → startsL cs (strL "*") = true →
      (stepCleanL st cs).readingData = true →
      recognizedPropLine cs = true
        ∨ (startsL (upperL cs) (strL "*MATERIAL") = true ∧ findNameTok cs = none
            ∧ stepCleanL st cs = st))
    ∧ (∀ (st : ParseState) (cs : List Char),
      st.readingData = false → startsL cs (strL "*") = false → stepCleanL st cs = st) := by
  constructor
  · intro st cs hsome hstar hread
    obtain ⟨m, cm, cp, rd⟩ := st
    cases cm with
    | none => simp at hsome
    | some mat =>
      by_cases hM : startsL (upperL cs) (strL "*MATERIAL") = true
      · cases hf : findNameTok cs with
        | some t => simp [stepCleanL, hM, hf] at hread
        | none => exact Or.inr ⟨hM, rfl, by simp [stepCleanL, hM, hf]⟩
      · left
        rw [Bool.not_eq_true] at hM
        by_cases hE : startsL (upperL cs) (strL "*ELASTIC") = true
        · simp [recognizedPropLine, hE]
        by_cases hP : startsL (upperL cs) (strL "*PLASTIC") = true
        · simp [recognizedPropLine, hP]
        by_cases hDe : startsL (upperL cs) (strL "*DENSITY") = true
        · simp [recognizedPropLine, hDe]
        by_cases hC : startsL (upperL cs) (strL "*CONDUCTIVITY") = true
        · simp [recognizedPropLine, hC]
        by_cases hS : startsL (upperL cs) (strL "*SPECIFIC HEAT") = true
        · simp [recognizedPropLine, hS]
        by_cases hEx : startsL (upperL cs) (strL "*EXPANSION") = true
        · simp [recognizedPropLine, hEx]
        by_cases hDa : startsL (upperL cs) (strL "*DAMPING") = true
        · simp [recognizedPropLine, hDa]
        by_cases hH : startsL (upperL cs) (strL "*HYPERELASTIC") = true
        · simp [recognizedPropLine, hH]
        by_cases hV : startsL (upperL cs) (strL "*VISCOELASTIC") = true
        · simp [recognizedPropLine, hV]
        by_cases hU : startsL (upperL cs) (strL "*USER MATERIAL") = true
        · simp [recognizedPropLine, hU]
        exfalso
        rw [Bool.not_eq_true] at hE hP hDe hC hS hEx hDa hH hV hU
        by_cases hD : startsL (upperL cs) (strL "*DEPVAR") = true
        · cases hfd : firstDigits cs <;>
            simp [stepCleanL, hM, hstar, keywordStep, hE, hP, hDe, hC, hS,
              hEx, hDa, hH, hV, hU, hD, hfd, insAttr] at hread
        · rw [Bool.not_eq_true] at hD
          by_cases hB : isBoundary (upperL cs) = true <;>
            [skip; rw [Bool.not_eq_true] at hB] <;>
            simp [stepCleanL, hM, hstar, keywordStep, hE, hP, hDe, hC, hS,
              hEx, hDa, hH, hV, hU, hD, hB] at hread
  · intro st cs hrd hstar
    exact stepClean_not_reading st cs hstar hrd

/-- Claim C2 amended, witnessed: the nameless *MATERIAL keyword line at
a concrete reading state satisfies the second disjunct. -/
theorem claim2_witness :
    recognizedPropLine (strL "*MATERIAL") = true
      ∨ (startsL (upperL (strL "*MATERIAL")) (strL "*MATERIAL") = true
          ∧ findNameTok (strL "*MATERIAL") = none
          ∧ stepCleanL ⟨[("M", [("Elastic", PropVal.rows [])])], some "M", some "Elastic", true⟩
              (strL "*MATERIAL")
            = ⟨[("M", [("Elastic", PropVal.rows [])])], some "M", some "Elastic", true⟩) :=
  claim2_amended.1 ⟨[("M", [("Elastic", PropVal.rows [])])], some "M", some "Elastic", true⟩
    (strL "*MATERIAL") rfl (by decide) (by decide)

/-! ## Claim C3 -/

/-- Claim C3: the boundary scenario yields exactly the expected nested
result, and after the *STEP boundary the material context is closed:
appending any run of lines containing no material-start keyword leaves
the result unchanged. -/
theorem claim3 :
    extract_material_properties
      ["*MATERIAL, name=Steel", "*ELASTIC, TYPE=ISOTROPIC", "210000.0, 0.3",
       "*DENSITY", "7850.0", "*STEP"] = steelResult
    ∧ ∀ (tail : List String), (∀ l ∈ tail, isMaterialLine l = false) →
        extract_material_properties
          (["*MATERIAL, name=Steel", "*ELASTIC, TYPE=ISOTROPIC", "210000.0, 0.3",
            "*DENSITY", "7850.0", "*STEP"] ++ tail) = steelResult := by
  constructor
  · decide
  · intro tail htail
    have h6 : processLines
        ["*MATERIAL, name=Steel", "*ELASTIC, TYPE=ISOTROPIC", "210000.0, 0.3",
         "*DENSITY", "7850.0", "*STEP"] initState
        = ⟨steelResult, none, none, false⟩ := by decide
    unfold extract_material_properties
    unfold processLines
    rw [List.foldl_append]
    have h6' : List.foldl stepLine initState
        ["*MATERIAL, name=Steel", "*ELASTIC, TYPE=ISOTROPIC", "210000.0, 0.3",
         "*DENSITY", "7850.0", "*STEP"] = ⟨steelResult, none, none, false⟩ := h6
    rw [h6']
    have hfix := processLines_no_material tail ⟨steelResult, none, none, false⟩ rfl htail
    unfold processLines at hfix
    rw [hfix]

/-- Claim C3, witnessed: a stray numeric data line after *STEP produces
no additional rows. -/
theorem claim3_witness :
    extract_material_properties
      (["*MATERIAL, name=Steel", "*ELASTIC, TYPE=ISOTROPIC", "210000.0, 0.3",
        "*DENSITY", "7850.0", "*STEP"] ++ ["99.9"]) = steelResult :=
  claim3.2 ["99.9"] (by decide)

/-! ## Claim C10 -/

/-- Claim C10: a data line whose comma-separated tokens are all empty
after trimming appends no row: the state (and so the whole result) is
unchanged. -/
theorem claim10 (st : ParseState) (mat prop : String) (cs : List Char)
    (h1 : st.currentMaterial = some mat) (h2 : st.readingData = true)
    (h3 : st.currentProperty = some prop)
    (h4 : startsL cs (strL "*") = false)
    (h5 : tokensOf cs = []) :
    stepCleanL st cs = st := by
  have hM : startsL (upperL cs) (strL "*MATERIAL") = false := notMat_of_not_star h4
  obtain ⟨m, cm, cp, rd⟩ := st
  simp only at h1 h2 h3
  subst h1 h2 h3
  simp [stepCleanL, hM, h4, dataStep, h5]

/-- Claim C10, witnessed at the line consisting only of commas and
spaces. -/
theorem claim10_witness :
    stepCleanL ⟨[("M", [("Elastic", PropVal.rows [])])], some "M", some "Elastic", true⟩
        (strL ", ,")
      = ⟨[("M", [("Elastic", PropVal.rows [])])], some "M", some "Elastic", true⟩ :=
  claim10 ⟨[("M", [("Elastic", PropVal.rows [])])], some "M", some "Elastic", true⟩
    "M" "Elastic" (strL ", ,") rfl rfl rfl (by decide) (by decide)

/-! ## Claim C4 -/

/-- Claim C4: a data line consumed while a property is active is split
on commas with tokens trimmed and empty tokens dropped; when every token
parses as a float the appended row is the float row, otherwise it is the
row of all raw string tokens — never a mix; and the line A, B, 1.0 is
stored as the string row. -/
theorem claim4 :
    (∀ (st : ParseState) (mat prop : String) (cs : List Char),
      st.currentMaterial = some mat → st.readingData = true →
      st.currentProperty = some prop →
      startsL cs (strL "*") = false →
      (tokensOf cs).isEmpty = false →
      ((∃ fs, allFloats (tokensOf cs) = some fs ∧
          stepCleanL st cs =
            ⟨dictModify mat (dictModify prop (appendRow (Row.nums fs))) st.materials,
              some mat, some prop, true⟩)
        ∨ (allFloats (tokensOf cs) = none ∧
          stepCleanL st cs =
            ⟨dictModify mat
                (dictModify prop (appendRow (Row.strs ((tokensOf cs).map String.mk))))
                st.materials,
              some mat, some prop, true⟩)))
    ∧ extract_material_properties ["*MATERIAL, name=M", "*ELASTIC", "A, B, 1.0"]
        = [("M", [("Elastic", PropVal.rows [Row.strs ["A", "B", "1.0"]])])] := by
  constructor
  · intro st mat prop cs h1 h2 h3 h4 h5
    have hM : startsL (upperL cs) (strL "*MATERIAL") = false := notMat_of_not_star h4
    obtain ⟨m, cm, cp, rd⟩ := st
    simp only at h1 h2 h3
    subst h1 h2 h3
    cases hA : allFloats (tokensOf cs) with
    | some fs =>
      exact Or.inl ⟨fs, rfl, by simp [stepCleanL, hM, h4, dataStep, h5, hA]⟩
    | none =>
      exact Or.inr ⟨rfl, by simp [stepCleanL, hM, h4, dataStep, h5, hA]⟩
  · decide

/-- Claim C4, witnessed at the mixed line A, B, 1.0 in a concrete
reading state. -/
theorem claim4_witness :
    (∃ fs, allFloats (tokensOf (strL "A, B, 1.0")) = some fs ∧
        stepCleanL ⟨[("M", [("Elastic", PropVal.rows [])])], some "M", some "Elastic", true⟩
            (strL "A, B, 1.0") =
          ⟨dictModify "M" (dictModify "Elastic" (appendRow (Row.nums fs)))
              [("M", [("Elastic", PropVal.rows [])])],
            some "M", some "Elastic", true⟩)
      ∨ (allFloats (tokensOf (strL "A, B, 1.0")) = none ∧
        stepCleanL ⟨[("M", [("Elastic", PropVal.rows [])])], some "M", some "Elastic", true⟩
            (strL "A, B, 1.0") =
          ⟨dictModify "M"
              (dictModify "Elastic"
                (appendRow (Row.strs ((tokensOf (strL "A, B, 1.0")).map String.mk))))
              [("M", [("Elastic", PropVal.rows [])])],
            some "M", some "Elastic", true⟩) :=
  claim4.1 ⟨[("M", [("Elastic", PropVal.rows [])])], some "M", some "Elastic", true⟩
    "M" "Elastic" (strL "A, B, 1.0") rfl rfl rfl (by decide) (by decide)

/-! ## Claim C9 -/

/-- Claim C9: a repeated *ELASTIC keyword (here: one with no type
attribute) re-initializes the Elastic entry to an empty row list in
place — discarding previously accumulated rows — while every other key
of the material (such as Elastic_Type from the first occurrence)
persists; the concrete two-occurrence run keeps only the rows read after
the last occurrence. -/
theorem claim9 :
    (∀ (st : ParseState) (mat : String) (cs : List Char),
      st.currentMaterial = some mat →
      startsL (upperL cs) (strL "*ELASTIC") = true →
      typeTok cs = none →
      stepCleanL st cs =
        ⟨dictModify mat (dictInsert "Elastic" (PropVal.rows [])) st.materials,
          some mat, some "Elastic", true⟩)
    ∧ (∀ (e : Material) (k : String), ¬ k = "Elastic" →
        dictLookup "Elastic" (dictInsert "Elastic" (PropVal.rows []) e)
            = some (PropVal.rows [])
          ∧ dictLookup k (dictInsert "Elastic" (PropVal.rows []) e) = dictLookup k e)
    ∧ extract_material_properties
        ["*MATERIAL, name=M", "*ELASTIC, TYPE=ISO", "1.0, 2.0", "*ELASTIC", "3.0"]
        = [("M", [("Elastic", PropVal.rows [Row.nums [PyFloat.finite 3]]),
                  ("Elastic_Type", PropVal.str "ISO")])] := by
  refine ⟨?_, ?_, by decide⟩
  · intro st mat cs h1 hE ht
    have hM : startsL (upperL cs) (strL "*MATERIAL") = false :=
      startsL_excl _ _ _ (by decide) hE
    have hStar : startsL cs (strL "*") = true := starts_star_of_upper hE
    obtain ⟨m, cm, cp, rd⟩ := st
    simp only at h1
    subst h1
    simp [stepCleanL, hM, hStar, keywordStep, hE, ht, startProp]
  · intro e k hk
    constructor
    · rw [dictLookup_insert]
      simp
    · rw [dictLookup_insert]
      rw [if_neg (fun hh => hk hh.symm)]

/-- Claim C9, witnessed at the bare repeated keyword line *ELASTIC in a
state that has accumulated Elastic rows and an Elastic_Type attribute. -/
theorem claim9_witness :
    stepCleanL
        ⟨[("M", [("Elastic", PropVal.rows [Row.nums [PyFloat.finite 1]]),
                 ("Elastic_Type", PropVal.str "ISO")])],
          some "M", some "Elastic", true⟩ (strL "*ELASTIC") =
      ⟨dictModify "M" (dictInsert "Elastic" (PropVal.rows []))
          [("M", [("Elastic", PropVal.rows [Row.nums [PyFloat.finite 1]]),
                  ("Elastic_Type", PropVal.str "ISO")])],
        some "M", some "Elastic", true⟩ :=
  claim9.1
    ⟨[("M", [("Elastic", PropVal.rows [Row.nums [PyFloat.finite 1]]),
             ("Elastic_Type", PropVal.str "ISO")])],
      some "M", some "Elastic", true⟩
    "M" (strL "*ELASTIC") rfl (by decide) (by decide)

/-! ## Claim C6 -/

theorem enumRecs_length (m p : String) : ∀ (rs : List Row) (i : Nat),
    (enumRecs m p i rs).length = rs.length := by
  intro rs
  induction rs with
  | nil => intro i; rfl
  | cons r rest ih => intro i; simp [enumRecs, ih]

/-- Claim C6: the number of flat records produced for one material is
the sum over its property entries of the row count for list values and
1 for scalar values. -/
theorem claim6 (m : String) (props : Material) :
    (recordsOfMaterial m props).length = specRecordCount props := by
  induction props with
  | nil => rfl
  | cons p rest ih =>
    obtain ⟨k, v⟩ := p
    cases v with
    | rows rs =>
      simp [recordsOfMaterial, specRecordCount, recsOfProp, List.length_append,
        enumRecs_length, ih]
    | str s =>
      simp [recordsOfMaterial, specRecordCount, recsOfProp, List.length_append, ih]
      omega
    | int n =>
      simp [recordsOfMaterial, specRecordCount, recsOfProp, List.length_append, ih]
      omega

/-! ## Claim C7 -/

theorem foldl_if_max : ∀ (l : List Nat) (a : Nat),
    l.foldl (fun m x => if m < x then x else m) a = max a (l.foldr max 0) := by
  intro l
  induction l with
  | nil => intro a; simp
  | cons x l ih =>
    intro a
    show l.foldl _ (if a < x then x else a) = max a (max x (l.foldr max 0))
    rw [ih]
    have hmax : (if a < x then x else a) = max a x := by
      rcases Nat.lt_or_ge a x with h | h
      · rw [if_pos h, Nat.max_eq_right h.le]
      · rw [if_neg (Nat.not_lt.mpr h), Nat.max_eq_left h]
    rw [hmax, Nat.max_assoc]

theorem maxWidth_eq_spec (rs : List FlatRecord) : maxWidth rs = specMaxWidth rs := by
  unfold maxWidth specMaxWidth
  rw [← List.foldl_map (fun r : FlatRecord => r.fields.length)
    (fun m x => if m < x then x else m)]
  rw [foldl_if_max]
  exact Nat.max_eq_right (Nat.zero_le _)

theorem csvRowCells_get (n : Nat) (r : FlatRecord) (j : Nat)
    (h1 : r.fields.length ≤ j) (h2 : j < n) :
    (csvRowCells n r).get? (4 + j) = some "" := by
  have hskip : (csvRowCells n r).get? (4 + j)
      = ((List.range n).map (fun j => ((r.fields.get? j).getD ""))).get? j := by
    rw [Nat.add_comm]
    rfl
  rw [hskip, List.get?_map, List.get?_range h2]
  simp only [Option.map_some']
  rw [List.get?_eq_none.mpr h1]
  rfl

/-- Claim C7: for a non-empty export the header row is the four fixed
columns followed by Value_1 .. Value_N where N is the maximum row width
across all records of the whole export; a record whose row is narrower
than N has the empty string in its trailing positional cells; and
scalar-valued records carry no positional fields at all. -/
theorem claim7 (ms : Materials) (hne : flatRecords ms ≠ []) :
    (csvTable ms).head? = some (["Material", "Property", "Row_Index", "Values"]
        ++ (List.range (specMaxWidth (flatRecords ms))).map
            (fun i => "Value_" ++ toString (i + 1)))
    ∧ maxWidth (flatRecords ms) = specMaxWidth (flatRecords ms)
    ∧ (∀ (r : FlatRecord) (j : Nat), r.fields.length ≤ j →
        j < maxWidth (flatRecords ms) →
        (csvRowCells (maxWidth (flatRecords ms)) r).get? (4 + j) = some "")
    ∧ (∀ (m p vs : String), (scalarRecord m p vs).fields = []) := by
  refine ⟨?_, maxWidth_eq_spec _, fun r j ha hb => csvRowCells_get _ r j ha hb,
    fun m p vs => rfl⟩
  have h1 : (flatRecords ms).isEmpty = false := by
    cases h : flatRecords ms with
    | nil => exact absurd h hne
    | cons a l => rfl
  unfold csvTable
  rw [h1]
  simp [csvHeader, maxWidth_eq_spec]

/-- Claim C7, witnessed at a concrete result with rows of widths 2 and
1 and one scalar attribute. -/
theorem claim7_witness :
    (csvTable [("M", [("Elastic",
          PropVal.rows [Row.nums [PyFloat.finite 1, PyFloat.finite 2],
                        Row.nums [PyFloat.finite 3]]),
        ("Elastic_Type", PropVal.str "ISO")])]).head?
      = some (["Material", "Property", "Row_Index", "Values"]
          ++ (List.range (specMaxWidth (flatRecords [("M", [("Elastic",
                PropVal.rows [Row.nums [PyFloat.finite 1, PyFloat.finite 2],
                              Row.nums [PyFloat.finite 3]]),
              ("Elastic_Type", PropVal.str "ISO")])]))).map
              (fun i => "Value_" ++ toString (i + 1)))
    ∧ maxWidth (flatRecords [("M", [("Elastic",
          PropVal.rows [Row.nums [PyFloat.finite 1, PyFloat.finite 2],
                        Row.nums [PyFloat.finite 3]]),
        ("Elastic_Type", PropVal.str "ISO")])])
      = specMaxWidth (flatRecords [("M", [("Elastic",
          PropVal.rows [Row.nums [PyFloat.finite 1, PyFloat.finite 2],
                        Row.nums [PyFloat.finite 3]]),
        ("Elastic_Type", PropVal.str "ISO")])])
    ∧ (∀ (r : FlatRecord) (j : Nat), r.fields.length ≤ j →
        j < maxWidth (flatRecords [("M", [("Elastic",
            PropVal.rows [Row.nums [PyFloat.finite 1, PyFloat.finite 2],
                          Row.nums [PyFloat.finite 3]]),
          ("Elastic_Type", PropVal.str "ISO")])]) →
        (csvRowCells (maxWidth (flatRecords [("M", [("Elastic",
            PropVal.rows [Row.nums [PyFloat.finite 1, PyFloat.finite 2],
                          Row.nums [PyFloat.finite 3]]),
          ("Elastic_Type", PropVal.str "ISO")])])) r).get? (4 + j) = some "")
    ∧ (∀ (m p vs : String), (scalarRecord m p vs).fields = []) :=
  claim7 [("M", [("Elastic",
      PropVal.rows [Row.nums [PyFloat.finite 1, PyFloat.finite 2],
                    Row.nums [PyFloat.finite 3]]),
    ("Elastic_Type", PropVal.str "ISO")])] (by decide)

/-! ## Claim C8 -/

theorem optList_somes {α : Type} (l : List α) :
    optList (l.map (fun x => some x)) = some l := by
  induction l with
  | nil => rfl
  | cons x xs ih =>
    simp only [List.map_cons, optList]
    rw [ih]

theorem decodeRow_encodeRow (r : Row) (h : wfRow r = true) :
    decodeRow (encodeRow r) = some r := by
  cases r with
  | nums l =>
    cases l with
    | nil => simp [wfRow] at h
    | cons x xs =>
      have hcn : asNum ∘ Json.jnum = (fun y : PyFloat => some y) := rfl
      simp [encodeRow, decodeRow, optList, asNum, hcn, optList_somes]
  | strs l =>
    cases l with
    | nil => simp [wfRow] at h
    | cons x xs =>
      have hcs : asStr ∘ Json.jstr = (fun y : String => some y) := rfl
      simp [encodeRow, decodeRow, optList, asNum, asStr, hcs, optList_somes]

theorem decodeRows_encode (rs : List Row) (h : rs.all wfRow = true) :
    optList (rs.map (fun r => decodeRow (encodeRow r))) = some rs := by
  induction rs with
  | nil => rfl
  | cons r rest ih =>
    simp only [List.all_cons, Bool.and_eq_true] at h
    simp only [List.map_cons]
    rw [decodeRow_encodeRow r h.1]
    simp only [optList]
    rw [ih h.2]

theorem decodePropVal_encode (v : PropVal) (h : wfPropVal v = true) :
    decodePropVal (encodePropVal v) = some v := by
  cases v with
  | rows rs =>
    show (optList ((rs.map encodeRow).map decodeRow)).map PropVal.rows
        = some (PropVal.rows rs)
    rw [List.map_map]
    rw [show List.map (decodeRow ∘ encodeRow) rs
        = List.map (fun r => decodeRow (encodeRow r)) rs from rfl]
    rw [decodeRows_encode rs h]
    rfl
  | str s => rfl
  | int n => rfl

theorem decodeMaterial_encode (m : Material) (h : wfMaterial m = true) :
    decodeMaterial (encodeMaterial m) = some m := by
  induction m with
  | nil => rfl
  | cons p rest ih =>
    obtain ⟨k, v⟩ := p
    simp only [wfMaterial, List.all_cons, Bool.and_eq_true] at h
    have hrest := ih h.2
    simp only [encodeMaterial, decodeMaterial, List.map_cons] at hrest ⊢
    rw [decodePropVal_encode v h.1]
    simp only [Option.map_some']
    simp only [optList]
    rw [hrest]

/-- Claim C8: serializing a result to the hierarchical JSON format and
deserializing the output reconstructs an equal nested structure (for
results whose rows are nonempty, as the parser produces them: numeric
rows stay numeric, string rows stay string). -/
theorem claim8 (ms : Materials) (h : wfMS ms = true) :
    decodeMS (encodeMS ms) = some ms := by
  induction ms with
  | nil => rfl
  | cons p rest ih =>
    obtain ⟨k, m⟩ := p
    simp only [wfMS, List.all_cons, Bool.and_eq_true] at h
    have hrest := ih h.2
    simp only [encodeMS, decodeMS, List.map_cons] at hrest ⊢
    rw [decodeMaterial_encode m h.1]
    simp only [Option.map_some']
    simp only [optList]
    rw [hrest]

/-- Claim C8, witnessed at a concrete result with a numeric row, a
string row, a string scalar and an integer scalar. -/
theorem claim8_witness :
    decodeMS (encodeMS [("M", [("Elastic",
        PropVal.rows [Row.nums [PyFloat.finite 1, PyFloat.finite (mkRat 3 10)],
                      Row.strs ["A", "B"]]),
      ("Elastic_Type", PropVal.str "ISO"), ("Depvar", PropVal.int 15)])])
      = some [("M", [("Elastic",
        PropVal.rows [Row.nums [PyFloat.finite 1, PyFloat.finite (mkRat 3 10)],
                      Row.strs ["A", "B"]]),
      ("Elastic_Type", PropVal.str "ISO"), ("Depvar", PropVal.int 15)])] :=
  claim8 [("M", [("Elastic",
      PropVal.rows [Row.nums [PyFloat.finite 1, PyFloat.finite (mkRat 3 10)],
                    Row.strs ["A", "B"]]),
    ("Elastic_Type", PropVal.str "ISO"), ("Depvar", PropVal.int 15)])] (by decide)

/-! ## Claim C5 -/

theorem lookup_insert_cong {α : Type} {X k : String} {v : α}
    {m₁ m₂ : List (String × α)}
    (h : dictLookup X m₁ = dictLookup X m₂) :
    dictLookup X (dictInsert k v m₁) = dictLookup X (dictInsert k v m₂) := by
  rw [dictLookup_insert, dictLookup_insert, h]

theorem lookup_modify_cong {α : Type} {X k : String} {f : α → α}
    {m₁ m₂ : List (String × α)}
    (h : dictLookup X m₁ = dictLookup X m₂) :
    dictLookup X (dictModify k f m₁) = dictLookup X (dictModify k f m₂) := by
  rw [dictLookup_modify, dictLookup_modify, h]

/-- One cleaned line preserves control-state equality and equality of
any single material's entry, across two runs differing only in the
accumulated map. -/
theorem stepCleanEqX (X : String) (m₁ m₂ : Materials) (cm cp : Option String)
    (rd : Bool) (cs : List Char)
    (h : dictLookup X m₁ = dictLookup X m₂) :
    (stepCleanL ⟨m₁, cm, cp, rd⟩ cs).currentMaterial
        = (stepCleanL ⟨m₂, cm, cp, rd⟩ cs).currentMaterial
    ∧ (stepCleanL ⟨m₁, cm, cp, rd⟩ cs).currentProperty
        = (stepCleanL ⟨m₂, cm, cp, rd⟩ cs).currentProperty
    ∧ (stepCleanL ⟨m₁, cm, cp, rd⟩ cs).readingData
        = (stepCleanL ⟨m₂, cm, cp, rd⟩ cs).readingData
    ∧ dictLookup X (stepCleanL ⟨m₁, cm, cp, rd⟩ cs).materials
        = dictLookup X (stepCleanL ⟨m₂, cm, cp, rd⟩ cs).materials := by
  by_cases hM : startsL (upperL cs) (strL "*MATERIAL") = true
  · cases hf : findNameTok cs with
    | some t =>
      simp only [stepCleanL, hM, if_true, hf]
      exact ⟨by trivial, by trivial, by trivial, lookup_insert_cong h⟩
    | none =>
      simp only [stepCleanL, hM, if_true, hf]
      exact ⟨by trivial, by trivial, by trivial, h⟩
  · rw [Bool.not_eq_true] at hM
    cases cm with
    | none => simp only [stepCleanL, hM]; exact ⟨by trivial, by trivial, by trivial, h⟩
    | some mat =>
      by_cases hstar : startsL cs (strL "*") = true
      · simp only [stepCleanL, hM, Bool.false_eq_true, if_false, hstar, if_true]
        by_cases hE : startsL (upperL cs) (strL "*ELASTIC") = true
        · cases ht : typeTok cs with
          | some t =>
            simp only [keywordStep, hE, if_true, ht, startProp, insAttr]
            exact ⟨by trivial, by trivial, by trivial, lookup_modify_cong (lookup_modify_cong h)⟩
          | none =>
            simp only [keywordStep, hE, if_true, ht, startProp]
            exact ⟨by trivial, by trivial, by trivial, lookup_modify_cong h⟩
        rw [Bool.not_eq_true] at hE
        by_cases hP : startsL (upperL cs) (strL "*PLASTIC") = true
        · cases ht : hardeningTok cs with
          | some t =>
            simp only [keywordStep, hE, Bool.false_eq_true, if_false, hP,
              if_true, ht, startProp, insAttr]
            exact ⟨by trivial, by trivial, by trivial, lookup_modify_cong (lookup_modify_cong h)⟩
          | none =>
            simp only [keywordStep, hE, Bool.false_eq_true, if_false, hP,
              if_true, ht, startProp]
            exact ⟨by trivial, by trivial, by trivial, lookup_modify_cong h⟩
        rw [Bool.not_eq_true] at hP
        by_cases hDe : startsL (upperL cs) (strL "*DENSITY") = true
        · simp only [keywordStep, hE, hP, Bool.false_eq_true, if_false, hDe,
            if_true, startProp]
          exact ⟨by trivial, by trivial, by trivial, lookup_modify_cong h⟩
        rw [Bool.not_eq_true] at hDe
        by_cases hC : startsL (upperL cs) (strL "*CONDUCTIVITY") = true
        · simp only [keywordStep, hE, hP, hDe, Bool.false_eq_true, if_false,
            hC, if_true, startProp]
          exact ⟨by trivial, by trivial, by trivial, lookup_modify_cong h⟩
        rw [Bool.not_eq_true] at hC
        by_cases hS : startsL (upperL cs) (strL "*SPECIFIC HEAT") = true
        · simp only [keywordStep, hE, hP, hDe, hC, Bool.false_eq_true,
            if_false, hS, if_true, startProp]
          exact ⟨by trivial, by trivial, by trivial, lookup_modify_cong h⟩
        rw [Bool.not_eq_true] at hS
        by_cases hEx : startsL (upperL cs) (strL "*EXPANSION") = true
        · cases ht : typeTok cs with
          | some t =>
            simp only [keywordStep, hE, hP, hDe, hC, hS, Bool.false_eq_true,
              if_false, hEx, if_true, ht, startProp, insAttr]
            exact ⟨by trivial, by trivial, by trivial, lookup_modify_cong (lookup_modify_cong h)⟩
          | none =>
            simp only [keywordStep, hE, hP, hDe, hC, hS, Bool.false_eq_true,
              if_false, hEx, if_true, ht, startProp]
            exact ⟨by trivial, by trivial, by trivial, lookup_modify_cong h⟩
        rw [Bool.not_eq_true] at hEx
        by_cases hDa : startsL (upperL cs) (strL "*DAMPING") = true
        · simp only [keywordStep, hE, hP, hDe, hC, hS, hEx, Bool.false_eq_true,
            if_false, hDa, if_true, startProp]
          exact ⟨by trivial, by trivial, by trivial, lookup_modify_cong h⟩
        rw [Bool.not_eq_true] at hDa
        by_cases hH : startsL (upperL cs) (strL "*HYPERELASTIC") = true
        · cases ht : hyperModelOf cs with
          | some t =>
            simp only [keywordStep, hE, hP, hDe, hC, hS, hEx, hDa,
              Bool.false_eq_true, if_false, hH, if_true, ht, startProp, insAttr]
            exact ⟨by trivial, by trivial, by trivial, lookup_modify_cong (lookup_modify_cong h)⟩
          | none =>
            simp only [keywordStep, hE, hP, hDe, hC, hS, hEx, hDa,
              Bool.false_eq_true, if_false, hH, if_true, ht, startProp]
            exact ⟨by trivial, by trivial, by trivial, lookup_modify_cong h⟩
        rw [Bool.not_eq_true] at hH
        by_cases hV : startsL (upperL cs) (strL "*VISCOELASTIC") = true
        · simp only [keywordStep, hE, hP, hDe, hC, hS, hEx, hDa, hH,
            Bool.false_eq_true, if_false, hV, if_true, startProp]
          exact ⟨by trivial, by trivial, by trivial, lookup_modify_cong h⟩
        rw [Bool.not_eq_true] at hV
        by_cases hU : startsL (upperL cs) (strL "*USER MATERIAL") = true
        · cases ht : constantsTok cs with
          | some t =>
            simp only [keywordStep, hE, hP, hDe, hC, hS, hEx, hDa, hH, hV,
              Bool.false_eq_true, if_false, hU, if_true, ht, startProp, insAttr]
            exact ⟨by trivial, by trivial, by trivial, lookup_modify_cong (lookup_modify_cong h)⟩
          | none =>
            simp only [keywordStep, hE, hP, hDe, hC, hS, hEx, hDa, hH, hV,
              Bool.false_eq_true, if_false, hU, if_true, ht, startProp]
            exact ⟨by trivial, by trivial, by trivial, lookup_modify_cong h⟩
        rw [Bool.not_eq_true] at hU
        by_cases hD : startsL (upperL cs) (strL "*DEPVAR") = true
        · cases ht : firstDigits cs with
          | some n =>
            simp only [keywordStep, hE, hP, hDe, hC, hS, hEx, hDa, hH, hV, hU,
              Bool.false_eq_true, if_false, hD, if_true, ht, insAttr]
            exact ⟨by trivial, by trivial, by trivial, lookup_modify_cong h⟩
          | none =>
            simp only [keywordStep, hE, hP, hDe, hC, hS, hEx, hDa, hH, hV, hU,
              Bool.false_eq_true, if_false, hD, if_true, ht]
            exact ⟨by trivial, by trivial, by trivial, h⟩
        rw [Bool.not_eq_true] at hD
        by_cases hB : isBoundary (upperL cs) = true
        · simp only [keywordStep, hE, hP, hDe, hC, hS, hEx, hDa, hH, hV, hU,
            hD, Bool.false_eq_true, if_false, hB, if_true]
          exact ⟨by trivial, by trivial, by trivial, h⟩
        · rw [Bool.not_eq_true] at hB
          simp only [keywordStep, hE, hP, hDe, hC, hS, hEx, hDa, hH, hV, hU,
            hD, hB, Bool.false_eq_true, if_false]
          exact ⟨by trivial, by trivial, by trivial, h⟩
      · rw [Bool.not_eq_true] at hstar
        by_cases hrd : rd = true
        · subst hrd
          cases cp with
          | some prop =>
            by_cases hT : (tokensOf cs).isEmpty = true
            · simp only [stepCleanL, hM, Bool.false_eq_true, if_false, hstar,
                dataStep, hT, if_true]
              exact ⟨by trivial, by trivial, by trivial, h⟩
            · rw [Bool.not_eq_true] at hT
              cases hA : allFloats (tokensOf cs) with
              | some fs =>
                simp only [stepCleanL, hM, Bool.false_eq_true, if_false, hstar,
                  dataStep, hT, hA]
                exact ⟨by trivial, by trivial, by trivial, lookup_modify_cong h⟩
              | none =>
                simp only [stepCleanL, hM, Bool.false_eq_true, if_false, hstar,
                  dataStep, hT, hA]
                exact ⟨by trivial, by trivial, by trivial, lookup_modify_cong h⟩
          | none =>
            simp only [stepCleanL, hM, Bool.false_eq_true, if_false, hstar]
            exact ⟨by trivial, by trivial, by trivial, h⟩
        · rw [Bool.not_eq_true] at hrd
          subst hrd
          simp only [stepCleanL, hM, Bool.false_eq_true, if_false, hstar]
          exact ⟨by trivial, by trivial, by trivial, h⟩

/-- One raw line preserves the same invariant. -/
theorem stepLineEqX (X : String) (st₁ st₂ : ParseState) (l : String)
    (hcm : st₁.currentMaterial = st₂.currentMaterial)
    (hcp : st₁.currentProperty = st₂.currentProperty)
    (hrd : st₁.readingData = st₂.readingData)
    (h : dictLookup X st₁.materials = dictLookup X st₂.materials) :
    (stepLine st₁ l).currentMaterial = (stepLine st₂ l).currentMaterial
    ∧ (stepLine st₁ l).currentProperty = (stepLine st₂ l).currentProperty
    ∧ (stepLine st₁ l).readingData = (stepLine st₂ l).readingData
    ∧ dictLookup X (stepLine st₁ l).materials
        = dictLookup X (stepLine st₂ l).materials := by
  obtain ⟨m₁, cm₁, cp₁, rd₁⟩ := st₁
  obtain ⟨m₂, cm₂, cp₂, rd₂⟩ := st₂
  simp only at hcm hcp hrd h
  subst hcm hcp hrd
  unfold stepLine
  cases hc : cleanLineL l.toList with
  | none => exact ⟨rfl, rfl, rfl, h⟩
  | some c => exact stepCleanEqX X m₁ m₂ cm₁ cp₁ rd₁ c h

/-- A whole run preserves the invariant. -/
theorem processEqX (X : String) : ∀ (ds : List String) (st₁ st₂ : ParseState),
    st₁.currentMaterial = st₂.currentMaterial →
    st₁.currentProperty = st₂.currentProperty →
    st₁.readingData = st₂.readingData →
    dictLookup X st₁.materials = dictLookup X st₂.materials →
    dictLookup X (processLines ds st₁).materials
      = dictLookup X (processLines ds st₂).materials := by
  intro ds
  induction ds with
  | nil => intro st₁ st₂ _ _ _ h; exact h
  | cons l ds ih =>
    intro st₁ st₂ h1 h2 h3 h4
    obtain ⟨a, b, c, d⟩ := stepLineEqX X st₁ st₂ l h1 h2 h3 h4
    exact ih (stepLine st₁ l) (stepLine st₂ l) a b c d

/-- Claim C5: a *MATERIAL declaration for name X re-initializes X's
entry to the empty material (regardless of anything accumulated before,
and without the previous block being closed), and the final entry for X
is determined solely by the lines from the declaration on: running the
suffix from any prior state gives the same X-entry as running it from
the initial state. -/
theorem claim5 (st : ParseState) (ds : List String) (d X : String)
    (hd : materialDeclFor d X = true) :
    dictLookup X ((processLines ds (stepLine st d)).materials)
      = dictLookup X ((processLines ds (stepLine initState d)).materials)
    ∧ dictLookup X ((stepLine st d).materials) = some [] := by
  unfold materialDeclFor at hd
  cases hc : cleanLineL d.toList with
  | none => rw [hc] at hd; simp at hd
  | some c =>
    rw [hc] at hd
    simp only [Bool.and_eq_true, beq_iff_eq] at hd
    obtain ⟨hM, hname⟩ := hd
    have hstep : ∀ s : ParseState, stepLine s d = stepCleanL s c := by
      intro s; unfold stepLine; rw [hc]
    have hmk : String.mk (strL X) = X := rfl
    have hform : ∀ s : ParseState, stepCleanL s c =
        ⟨dictInsert X [] s.materials, some X, none, false⟩ := by
      intro s
      simp only [stepCleanL, hM, if_true, hname, hmk]
    have hlook : ∀ s : ParseState,
        dictLookup X ((stepLine s d).materials) = some [] := by
      intro s
      rw [hstep, hform]
      rw [dictLookup_insert]
      simp
    refine ⟨?_, hlook st⟩
    apply processEqX
    · rw [hstep, hform, hstep, hform]
    · rw [hstep, hform, hstep, hform]
    · rw [hstep, hform, hstep, hform]
    · rw [hlook st, hlook initState]

/-- Claim C5, witnessed: re-declaring X after it has accumulated an
Elastic row, then reading a fresh Elastic block, yields the same X-entry
as a fresh parse of the suffix. -/
theorem claim5_witness :
    dictLookup "X"
        ((processLines ["*ELASTIC", "5.0"]
          (stepLine ⟨[("X", [("Elastic", PropVal.rows [Row.nums [PyFloat.finite 1]])])],
              some "X", some "Elastic", true⟩
            "*MATERIAL, name=X")).materials)
      = dictLookup "X"
          ((processLines ["*ELASTIC", "5.0"]
            (stepLine initState "*MATERIAL, name=X")).materials)
    ∧ dictLookup "X"
        ((stepLine ⟨[("X", [("Elastic", PropVal.rows [Row.nums [PyFloat.finite 1]])])],
            some "X", some "Elastic", true⟩
          "*MATERIAL, name=X").materials) = some [] :=
  claim5 ⟨[("X", [("Elastic", PropVal.rows [Row.nums [PyFloat.finite 1]])])],
      some "X", some "Elastic", true⟩
    ["*ELASTIC", "5.0"] "*MATERIAL, name=X" "X" (by decide)
